import Mathlib

/-!
# Cable dimensioning formulas (`cable_dimensioning.c`)

A shallow embedding of the exported functions of `src/emsdk/cable_dimensioning.c`.

Conventions of the embedding:

* A C `double` is read in exact arithmetic: every definition is written over an
  arbitrary linearly ordered field `α` (so it runs over `ℚ` and the theorems also
  hold over `ℝ`).  Infinities and NaN are outside this model.
* Where the rounding of the doubles decides a property (the soundness of the sizing),
  the two functions involved are also given with binary64 rounding after every
  operation (`cross_section_single_binary64`, `voltage_drop_single_binary64`), a
  double being the rational number it denotes.
* `sqrt` comes from `<math.h>`, which is not part of the repository; the two
  three-phase functions take it as a parameter.
* A `double*` argument is `Option (List α)`: `none` is the null pointer and
  `some xs` points to the elements `xs`.  Reading past the end of `xs` is
  undefined behaviour in C; the embedding reports it as `none`.
* A C `int` is an `Int`.
-/

namespace CableDimensioning

variable {α : Type} [LinearOrderedField α]

/-! ## Material properties -/

/-- The constant `TEMP_COEFF_CU`. -/
def TEMP_COEFF_CU : α := 0.00393

/-- The constant `TEMP_COEFF_AL`. -/
def TEMP_COEFF_AL : α := 0.00403

/-- The constant `RHO_CU_20C` (ohm·mm²/m). -/
def RHO_CU_20C : α := 0.017241

/-- The constant `RHO_AL_20C` (ohm·mm²/m). -/
def RHO_AL_20C : α := 0.028265

/-- The function `double get_resistivity(int isCopper, double temperatureC)`; the C test
`isCopper ? _ : _` is `isCopper ≠ 0`. -/
def get_resistivity (isCopper : Int) (temperatureC : α) : α :=
  let rho : α := if isCopper ≠ 0 then RHO_CU_20C else RHO_AL_20C
  let alpha : α := if isCopper ≠ 0 then TEMP_COEFF_CU else TEMP_COEFF_AL
  rho * (1 + alpha * (temperatureC - 20))

/-! ## Voltage drop -/

/-- The function `double voltage_drop_single(double currentA, double lengthM, double
resistivity, double crossSection)`. -/
def voltage_drop_single (currentA lengthM resistivity crossSection : α) : α :=
  if crossSection ≤ 0 then -1
  else currentA * 2 * lengthM * resistivity / crossSection

/-- The function `double voltage_drop_three(...)`; `sqrt` is the function of `<math.h>`. -/
def voltage_drop_three (sqrt : α → α) (currentA lengthM resistivity crossSection : α) : α :=
  if crossSection ≤ 0 then -1
  else sqrt 3 * currentA * lengthM * resistivity / crossSection

/-- The outcome of a call of `voltage_drop_chain` that returns: the value returned and,
as ghost state, the indices of the segments that were read, in the order of the reads. -/
structure ChainRun (α : Type) where
  value : α
  reads : List Nat
  deriving DecidableEq

/-- The loop `for (int i = 0; i < count; ++i) total += voltage_drop_single(currentA,
lengths[i], resistivity, sections[i]);` of `voltage_drop_chain` followed by
`return total;`, entered with the loop variable `i`, the accumulator `total` and the
segments `reads` read so far.  The result is `none` when `lengths[i]` or `sections[i]`
is read past the end of its sequence. -/
def voltage_drop_chain_loop (currentA resistivity : α) (lengths sections : List α)
    (count : Int) (i : Nat) (total : α) (reads : List Nat) : Option (ChainRun α) :=
  if (i : Int) < count then
    match lengths[i]?, sections[i]? with
    | some l, some s =>
      voltage_drop_chain_loop currentA resistivity lengths sections count (i + 1)
        (total + voltage_drop_single currentA l resistivity s) (reads ++ [i])
    | _, _ => none
  else some ⟨total, reads⟩
termination_by (count - i).toNat
decreasing_by omega

/-- The function `double voltage_drop_chain(double currentA, double resistivity, double*
lengths, double* sections, int count)`, with the segments it reads. -/
def voltage_drop_chain_run (currentA resistivity : α) (lengths sections : Option (List α))
    (count : Int) : Option (ChainRun α) :=
  match lengths, sections with
  | some ls, some ss =>
    if count ≤ 0 then some ⟨-1, []⟩
    else voltage_drop_chain_loop currentA resistivity ls ss count 0 0 []
  | _, _ => some ⟨-1, []⟩

/-- The value returned by `voltage_drop_chain`. -/
def voltage_drop_chain (currentA resistivity : α) (lengths sections : Option (List α))
    (count : Int) : Option α :=
  (voltage_drop_chain_run currentA resistivity lengths sections count).map ChainRun.value

/-! ## Sizing -/

/-- The function `double cross_section_single(double currentA, double lengthM, double
resistivity, double maxDropV)`. -/
def cross_section_single (currentA lengthM resistivity maxDropV : α) : α :=
  if maxDropV ≤ 0 then -1
  else (2 * lengthM * resistivity * currentA) / maxDropV

/-- The function `double cross_section_three(...)`; `sqrt` is the function of `<math.h>`. -/
def cross_section_three (sqrt : α → α) (currentA lengthM resistivity maxDropV : α) : α :=
  if maxDropV ≤ 0 then -1
  else (sqrt 3 * lengthM * resistivity * currentA) / maxDropV

/-! ## Power loss -/

/-- The function `double power_loss(double currentA, double lengthM, double resistivity,
double crossSection)`. -/
def power_loss (currentA lengthM resistivity crossSection : α) : α :=
  if crossSection ≤ 0 then -1
  else
    let R : α := (2 * lengthM * resistivity) / crossSection
    currentA * currentA * R

/-! ## Derating -/

/-- The function `double apply_derating(double baseCurrent, double kTemp, double kGroup)`;
the two assignments to the parameters are the two `let`s. -/
def apply_derating (baseCurrent kTemp kGroup : α) : α :=
  let kTemp : α := if kTemp ≤ 0 then 1 else kTemp
  let kGroup : α := if kGroup ≤ 0 then 1 else kGroup
  baseCurrent * kTemp * kGroup

/-! ## Standard conductor sizes -/

/-- The table `STANDARD_SIZES[]` (mm²).  `STANDARD_COUNT` is `sizeof(STANDARD_SIZES) /
sizeof(STANDARD_SIZES[0])`, the number of entries of this list. -/
def STANDARD_SIZES : List α :=
  [1.5, 2.5, 4, 6, 10, 16, 25, 35, 50, 70, 95, 120, 150, 185, 240]

/-- The loop of `round_to_standard`, started at the entries `sizes` that are still to
be visited: `for (i ...) if (STANDARD_SIZES[i] >= requested) return STANDARD_SIZES[i];`
followed by `return requested;`. -/
def round_to_standard_loop (requested : α) : List α → α
  | [] => requested
  | s :: sizes => if s ≥ requested then s else round_to_standard_loop requested sizes

/-- The function `double round_to_standard(double requested)`. -/
def round_to_standard (requested : α) : α :=
  round_to_standard_loop requested STANDARD_SIZES

/-! ## Binary64 arithmetic -/

theorem round_to_standard_loop_of_all_lt (x : α) (l : List α) (h : ∀ s ∈ l, s < x) :
    round_to_standard_loop x l = x := by
  induction l with
  | nil => rfl
  | cons a l ih =>
    have ha : ¬ a ≥ x := not_le.mpr (h a (List.mem_cons_self a l))
    simp only [round_to_standard_loop, if_neg ha]
    exact ih (fun s hs => h s (List.mem_cons_of_mem a hs))

theorem round_to_standard_loop_least (x : α) (l : List α) (hsorted : l.Pairwise (· ≤ ·))
    (hex : ∃ s ∈ l, x ≤ s) :
    round_to_standard_loop x l ∈ l ∧ x ≤ round_to_standard_loop x l ∧
      ∀ s ∈ l, x ≤ s → round_to_standard_loop x l ≤ s := by
  induction l with
  | nil => obtain ⟨s, hs, _⟩ := hex; cases hs
  | cons a l ih =>
    rw [List.pairwise_cons] at hsorted
    by_cases ha : a ≥ x
    · simp only [round_to_standard_loop, if_pos ha]
      refine ⟨List.mem_cons_self a l, ha, ?_⟩
      intro s hs _
      rcases List.mem_cons.mp hs with rfl | hs
      · exact le_refl _
      · exact hsorted.1 s hs
    · simp only [round_to_standard_loop, if_neg ha]
      have hex2 : ∃ s ∈ l, x ≤ s := by
        obtain ⟨s, hs, hxs⟩ := hex
        rcases List.mem_cons.mp hs with rfl | hs
        · exact absurd hxs ha
        · exact ⟨s, hs, hxs⟩
      obtain ⟨h1, h2, h3⟩ := ih hsorted.2 hex2
      refine ⟨List.mem_cons_of_mem a h1, h2, ?_⟩
      intro s hs hxs
      rcases List.mem_cons.mp hs with rfl | hs
      · exact absurd hxs ha
      · exact h3 s hs hxs

theorem STANDARD_SIZES_sorted : (STANDARD_SIZES : List α).Pairwise (· ≤ ·) := by
  simp only [STANDARD_SIZES, List.pairwise_cons, List.mem_cons, List.mem_singleton,
    List.not_mem_nil, forall_eq_or_imp, forall_eq, List.Pairwise.nil]
  norm_num

theorem STANDARD_SIZES_le_max (s : α) (hs : s ∈ (STANDARD_SIZES : List α)) : s ≤ 240 := by
  simp only [STANDARD_SIZES, List.mem_cons, List.mem_singleton, List.not_mem_nil,
    or_false] at hs
  rcases hs with h | h | h | h | h | h | h | h | h | h | h | h | h | h | h <;>
    (subst h; norm_num)

theorem STANDARD_SIZES_max_mem : (240 : α) ∈ (STANDARD_SIZES : List α) := by
  simp [STANDARD_SIZES]

/-! ## Claims on `round_to_standard` -/

/-- C1: for every requested value `x ≤ 240`, `round_to_standard x` is the least entry of
the standard-size table that is `≥ x`: it is a member of the table, it is `≥ x`, and every
table entry that is `≥ x` is `≥` the result. -/
theorem round_to_standard_least_entry (x : α) (hx : x ≤ 240) :
    round_to_standard x ∈ (STANDARD_SIZES : List α) ∧ x ≤ round_to_standard x ∧
      ∀ s ∈ (STANDARD_SIZES : List α), x ≤ s → round_to_standard x ≤ s :=
  round_to_standard_loop_least x STANDARD_SIZES STANDARD_SIZES_sorted
    ⟨240, STANDARD_SIZES_max_mem, hx⟩

theorem round_to_standard_least_entry_witness :
    (5 : ℚ) ≤ 240 ∧
      (round_to_standard (5 : ℚ) ∈ (STANDARD_SIZES : List ℚ) ∧
        (5 : ℚ) ≤ round_to_standard (5 : ℚ) ∧
        ∀ s ∈ (STANDARD_SIZES : List ℚ), (5 : ℚ) ≤ s → round_to_standard (5 : ℚ) ≤ s) :=
  ⟨by norm_num, round_to_standard_least_entry (5 : ℚ) (by norm_num)⟩

/-- The two examples of the specification: `round_to_standard(5) = 6` and
`round_to_standard(240) = 240`. -/
theorem round_to_standard_examples :
    round_to_standard (5 : ℚ) = 6 ∧ round_to_standard (240 : ℚ) = 240 := by
  constructor <;> norm_num [round_to_standard, round_to_standard_loop, STANDARD_SIZES]

/-- C2: for every requested value `x > 240` (the largest standard size),
`round_to_standard x` is `x` itself; the result is not the sentinel `-1` and is not an
entry of the table. -/
theorem round_to_standard_above_table (x : α) (hx : 240 < x) :
    round_to_standard x = x ∧ round_to_standard x ≠ -1 ∧
      round_to_standard x ∉ (STANDARD_SIZES : List α) := by
  have h : round_to_standard x = x :=
    round_to_standard_loop_of_all_lt x STANDARD_SIZES
      (fun s hs => lt_of_le_of_lt (STANDARD_SIZES_le_max s hs) hx)
  refine ⟨h, ?_, ?_⟩
  · rw [h]
    intro hneg
    rw [hneg] at hx
    norm_num at hx
  · rw [h]
    intro hmem
    exact absurd (STANDARD_SIZES_le_max x hmem) (not_le.mpr hx)

theorem round_to_standard_above_table_witness :
    (240 : ℚ) < 300 ∧
      (round_to_standard (300 : ℚ) = 300 ∧ round_to_standard (300 : ℚ) ≠ -1 ∧
        round_to_standard (300 : ℚ) ∉ (STANDARD_SIZES : List ℚ)) :=
  ⟨by norm_num, round_to_standard_above_table (300 : ℚ) (by norm_num)⟩

/-! ## Claims on the closed formulas -/

/-- C6: for every `I`, `L`, `rho` and `S`, `voltage_drop_single I L rho S` is
`I * 2 * L * rho / S` when `S > 0` and is the sentinel `-1` when `S ≤ 0`; the current and
the length are arbitrary, so a negative current or length is not rejected. -/
theorem voltage_drop_single_spec (I L rho S : α) :
    (0 < S → voltage_drop_single I L rho S = I * 2 * L * rho / S) ∧
      (S ≤ 0 → voltage_drop_single I L rho S = -1) := by
  constructor
  · intro hS
    simp only [voltage_drop_single, if_neg (not_le.mpr hS)]
  · intro hS
    simp only [voltage_drop_single, if_pos hS]

theorem voltage_drop_single_spec_witness :
    ((0 : ℚ) < 4 ∧ voltage_drop_single (-10 : ℚ) 3 5 4 = -10 * 2 * 3 * 5 / 4) ∧
      ((-5 : ℚ) ≤ 0 ∧ voltage_drop_single (10 : ℚ) 3 5 (-5) = -1) :=
  ⟨⟨by norm_num, (voltage_drop_single_spec (-10 : ℚ) 3 5 4).1 (by norm_num)⟩,
    ⟨by norm_num, (voltage_drop_single_spec (10 : ℚ) 3 5 (-5)).2 (by norm_num)⟩⟩

/-- C7: for every `I`, `L`, `rho` and `S`, `voltage_drop_three I L rho S` is
`sqrt 3 * I * L * rho / S` when `S > 0` and is the sentinel `-1` when `S ≤ 0`, whatever
the square-root function of the platform is (over `ℝ`: `Real.sqrt`). -/
theorem voltage_drop_three_spec (sqrt : α → α) (I L rho S : α) :
    (0 < S → voltage_drop_three sqrt I L rho S = sqrt 3 * I * L * rho / S) ∧
      (S ≤ 0 → voltage_drop_three sqrt I L rho S = -1) := by
  constructor
  · intro hS
    simp only [voltage_drop_three, if_neg (not_le.mpr hS)]
  · intro hS
    simp only [voltage_drop_three, if_pos hS]

theorem voltage_drop_three_spec_witness :
    ((0 : ℝ) < 4 ∧
        voltage_drop_three Real.sqrt (10 : ℝ) 3 5 4 = Real.sqrt 3 * 10 * 3 * 5 / 4) ∧
      ((0 : ℝ) ≤ 0 ∧ voltage_drop_three Real.sqrt (10 : ℝ) 3 5 0 = -1) :=
  ⟨⟨by norm_num, (voltage_drop_three_spec Real.sqrt (10 : ℝ) 3 5 4).1 (by norm_num)⟩,
    ⟨le_refl 0, (voltage_drop_three_spec Real.sqrt (10 : ℝ) 3 5 0).2 (le_refl 0)⟩⟩

/-- C8: for every `I`, `L`, `rho` and `maxDropV`, `cross_section_single I L rho maxDropV`
is `(2 * L * rho * I) / maxDropV` when `maxDropV > 0` and is the sentinel `-1` when
`maxDropV ≤ 0`. -/
theorem cross_section_single_spec (I L rho maxDropV : α) :
    (0 < maxDropV → cross_section_single I L rho maxDropV = (2 * L * rho * I) / maxDropV) ∧
      (maxDropV ≤ 0 → cross_section_single I L rho maxDropV = -1) := by
  constructor
  · intro hV
    simp only [cross_section_single, if_neg (not_le.mpr hV)]
  · intro hV
    simp only [cross_section_single, if_pos hV]

theorem cross_section_single_spec_witness :
    ((0 : ℚ) < 6 ∧ cross_section_single (16 : ℚ) 30 (1 / 56) 6 = (2 * 30 * (1 / 56) * 16) / 6) ∧
      ((0 : ℚ) ≤ 0 ∧ cross_section_single (16 : ℚ) 30 (1 / 56) 0 = -1) :=
  ⟨⟨by norm_num, (cross_section_single_spec (16 : ℚ) 30 (1 / 56) 6).1 (by norm_num)⟩,
    ⟨le_refl 0, (cross_section_single_spec (16 : ℚ) 30 (1 / 56) 0).2 (le_refl 0)⟩⟩

/-- C9: for every `I`, `L`, `rho` and `maxDropV`, `cross_section_three I L rho maxDropV`
is `(sqrt 3 * L * rho * I) / maxDropV` when `maxDropV > 0` and is the sentinel `-1` when
`maxDropV ≤ 0`, whatever the square-root function of the platform is (over `ℝ`:
`Real.sqrt`). -/
theorem cross_section_three_spec (sqrt : α → α) (I L rho maxDropV : α) :
    (0 < maxDropV →
        cross_section_three sqrt I L rho maxDropV = (sqrt 3 * L * rho * I) / maxDropV) ∧
      (maxDropV ≤ 0 → cross_section_three sqrt I L rho maxDropV = -1) := by
  constructor
  · intro hV
    simp only [cross_section_three, if_neg (not_le.mpr hV)]
  · intro hV
    simp only [cross_section_three, if_pos hV]

theorem cross_section_three_spec_witness :
    ((0 : ℝ) < 6 ∧
        cross_section_three Real.sqrt (16 : ℝ) 30 2 6 = (Real.sqrt 3 * 30 * 2 * 16) / 6) ∧
      ((-1 : ℝ) ≤ 0 ∧ cross_section_three Real.sqrt (16 : ℝ) 30 2 (-1) = -1) :=
  ⟨⟨by norm_num, (cross_section_three_spec Real.sqrt (16 : ℝ) 30 2 6).1 (by norm_num)⟩,
    ⟨by norm_num, (cross_section_three_spec Real.sqrt (16 : ℝ) 30 2 (-1)).2 (by norm_num)⟩⟩

/-- C10: for every `I`, `L`, `rho` and `S`, `power_loss I L rho S` is
`I * I * (2 * L * rho / S)` when `S > 0` and is the sentinel `-1` when `S ≤ 0`. -/
theorem power_loss_spec (I L rho S : α) :
    (0 < S → power_loss I L rho S = I * I * (2 * L * rho / S)) ∧
      (S ≤ 0 → power_loss I L rho S = -1) := by
  constructor
  · intro hS
    simp only [power_loss, if_neg (not_le.mpr hS)]
  · intro hS
    simp only [power_loss, if_pos hS]

theorem power_loss_spec_witness :
    ((0 : ℚ) < 4 ∧ power_loss (10 : ℚ) 3 5 4 = 10 * 10 * (2 * 3 * 5 / 4)) ∧
      ((-5 : ℚ) ≤ 0 ∧ power_loss (10 : ℚ) 3 5 (-5) = -1) :=
  ⟨⟨by norm_num, (power_loss_spec (10 : ℚ) 3 5 4).1 (by norm_num)⟩,
    ⟨by norm_num, (power_loss_spec (10 : ℚ) 3 5 (-5)).2 (by norm_num)⟩⟩

/-! ## Round trip between the drop and the sizing formulas -/

/-- C3, as stated, fails: with the negative current `I = -1` (and `L = 1`, `rho = 1`,
`S = 1`) the drop is `-2`, which `cross_section_single` rejects with `-1`; with
`rho = 0` (and `I = 1`) the drop is `0`, rejected as well. -/
theorem cross_section_single_round_trip_counterexample :
    ((-1 : ℚ) ≠ 0 ∧ (0 : ℚ) < 1 ∧ (0 : ℚ) < 1 ∧
        voltage_drop_single (-1 : ℚ) 1 1 1 = -2 ∧
        cross_section_single (-1 : ℚ) 1 1 (voltage_drop_single (-1 : ℚ) 1 1 1) = -1 ∧
        cross_section_single (-1 : ℚ) 1 1 (voltage_drop_single (-1 : ℚ) 1 1 1) ≠ 1) ∧
      ((1 : ℚ) ≠ 0 ∧
        cross_section_single (1 : ℚ) 1 0 (voltage_drop_single (1 : ℚ) 1 0 1) ≠ 1) := by
  norm_num [voltage_drop_single, cross_section_single]

/-- C3, amended: for every length `L > 0` and cross-section `S > 0`, the round trip
`cross_section_single I L rho (voltage_drop_single I L rho S)` gives back `S` exactly when
`I * rho > 0`, that is when the current and the resistivity are non-zero and of the same
sign. -/
theorem cross_section_single_round_trip (I L rho S : α) (hL : 0 < L) (hS : 0 < S) :
    cross_section_single I L rho (voltage_drop_single I L rho S) = S ↔ 0 < I * rho := by
  have hdrop : voltage_drop_single I L rho S = I * 2 * L * rho / S := by
    simp only [voltage_drop_single, if_neg (not_le.mpr hS)]
  have hform : I * 2 * L * rho / S = (I * rho) * (2 * L / S) := by
    field_simp
    ring
  have hpos : 0 < 2 * L / S := div_pos (by linarith) hS
  rw [hdrop]
  constructor
  · intro h
    by_contra hneg
    have hle : I * 2 * L * rho / S ≤ 0 := by
      rw [hform]
      exact mul_nonpos_of_nonpos_of_nonneg (not_lt.mp hneg) hpos.le
    simp only [cross_section_single, if_pos hle] at h
    linarith
  · intro hIrho
    have hgt : 0 < I * 2 * L * rho / S := by
      rw [hform]
      exact mul_pos hIrho hpos
    simp only [cross_section_single, if_neg (not_le.mpr hgt)]
    have hI : I ≠ 0 := left_ne_zero_of_mul hIrho.ne.symm
    have hrho : rho ≠ 0 := right_ne_zero_of_mul hIrho.ne.symm
    field_simp
    ring

theorem cross_section_single_round_trip_witness :
    (0 : ℚ) < 30 ∧ (0 : ℚ) < 4 ∧
      (cross_section_single (16 : ℚ) 30 (1 / 56) (voltage_drop_single (16 : ℚ) 30 (1 / 56) 4)
          = 4 ↔ 0 < (16 : ℚ) * (1 / 56)) :=
  ⟨by norm_num, by norm_num,
    cross_section_single_round_trip (16 : ℚ) 30 (1 / 56) 4 (by norm_num) (by norm_num)⟩


/-! ## The chain of segments -/

theorem voltage_drop_chain_loop_exit (I rho : α) (ls ss : List α) (count : Int) (i : Nat)
    (total : α) (reads : List Nat) (h : ¬ (i : Int) < count) :
    voltage_drop_chain_loop I rho ls ss count i total reads = some ⟨total, reads⟩ := by
  rw [voltage_drop_chain_loop, if_neg h]

theorem voltage_drop_chain_loop_step (I rho : α) (ls ss : List α) (count : Int) (i : Nat)
    (total : α) (reads : List Nat) (h : (i : Int) < count) (hl : i < ls.length)
    (hs : i < ss.length) :
    voltage_drop_chain_loop I rho ls ss count i total reads =
      voltage_drop_chain_loop I rho ls ss count (i + 1)
        (total + voltage_drop_single I ls[i] rho ss[i]) (reads ++ [i]) := by
  rw [voltage_drop_chain_loop, if_pos h, List.getElem?_eq_getElem hl,
    List.getElem?_eq_getElem hs]

theorem voltage_drop_chain_loop_eq (I rho : α) (ls ss : List α) (hlen : ls.length = ss.length)
    (k : Nat) : ∀ (i : Nat) (total : α) (reads : List Nat), i + k = ls.length →
      voltage_drop_chain_loop I rho ls ss (ls.length : Int) i total reads =
        some ⟨total + ∑ j in Finset.range k,
            voltage_drop_single I (ls.getD (i + j) 0) rho (ss.getD (i + j) 0),
          reads ++ (List.range k).map (fun j => i + j)⟩ := by
  induction k with
  | zero =>
    intro i total reads hi
    rw [voltage_drop_chain_loop_exit]
    · simp
    · omega
  | succ k ih =>
    intro i total reads hi
    have hl : i < ls.length := by omega
    have hs : i < ss.length := by omega
    rw [voltage_drop_chain_loop_step I rho ls ss _ i total reads (by omega) hl hs,
      ih (i + 1) _ _ (by omega)]
    congr 1
    rw [Finset.sum_range_succ', List.range_succ_eq_map, List.map_cons, List.map_map]
    congr 1
    · rw [add_assoc, add_comm (voltage_drop_single I ls[i] rho ss[i])]
      congr 2
      · apply Finset.sum_congr rfl
        intro j _
        rw [show i + 1 + j = i + (j + 1) by omega]
      · simp [List.getD_eq_getElem, hl, hs]
    · simp only [List.append_assoc, List.singleton_append, Nat.add_zero]
      congr 2
      apply List.map_congr_left
      intro j _
      simp only [Function.comp, Nat.succ_eq_add_one]
      omega


/-- C4: for every current, every resistivity, every `count > 0` and every pair of non-null
sequences `lengths` and `sections` each holding exactly `count` elements,
`voltage_drop_chain` returns the sum over `i` in `[0, count)` of
`voltage_drop_single currentA lengths[i] resistivity sections[i]`. -/
theorem voltage_drop_chain_eq_sum (currentA resistivity : α) (lengths sections : List α)
    (count : Int) (hcount : 0 < count) (hl : (lengths.length : Int) = count)
    (hs : (sections.length : Int) = count) :
    voltage_drop_chain currentA resistivity (some lengths) (some sections) count =
      some (∑ i : Fin lengths.length,
        voltage_drop_single currentA (lengths.get i) resistivity
          (sections.get (i.cast (Int.ofNat_inj.mp (hl.trans hs.symm))))) := by
  have hlen : lengths.length = sections.length := Int.ofNat_inj.mp (hl.trans hs.symm)
  have hrun := voltage_drop_chain_loop_eq currentA resistivity lengths sections hlen
    lengths.length 0 0 [] (Nat.zero_add _)
  rw [hl] at hrun
  simp only [voltage_drop_chain, voltage_drop_chain_run, if_neg (not_le.mpr hcount), hrun,
    Option.map_some', zero_add]
  congr 1
  rw [Finset.sum_range]
  apply Finset.sum_congr rfl
  intro i _
  have hi : (i : Nat) < sections.length := hlen ▸ i.isLt
  simp [List.getD_eq_getElem, i.isLt, hi]

theorem voltage_drop_chain_eq_sum_witness :
    (0 : Int) < 3 ∧ (([1, 2, 3] : List ℚ).length : Int) = 3 ∧
      (([4, 5, 6] : List ℚ).length : Int) = 3 ∧
      voltage_drop_chain (10 : ℚ) 2 (some [1, 2, 3]) (some [4, 5, 6]) 3 =
        some (∑ i : Fin ([1, 2, 3] : List ℚ).length,
          voltage_drop_single (10 : ℚ) (([1, 2, 3] : List ℚ).get i) 2
            (([4, 5, 6] : List ℚ).get (i.cast rfl))) :=
  ⟨by decide, rfl, rfl,
    voltage_drop_chain_eq_sum (10 : ℚ) 2 [1, 2, 3] [4, 5, 6] 3 (by decide) rfl rfl⟩

/-- Example of C4: three segments of lengths 1, 2, 3 and sections 4, 5, 6 under a
current of 10 and a resistivity of 2 give 10 + 16 + 20 = 46. -/
theorem voltage_drop_chain_example :
    voltage_drop_chain (10 : ℚ) 2 (some [1, 2, 3]) (some [4, 5, 6]) 3 = some 46 := by
  simp [voltage_drop_chain, voltage_drop_chain_run, voltage_drop_chain_loop,
    voltage_drop_single]
  norm_num

/-- C5: `voltage_drop_chain` returns the sentinel `-1` whenever `count ≤ 0`, or `lengths`
is null, or `sections` is null, whatever the other arguments are, and in these cases no
segment is read (the list of reads is empty; the sequences may even be empty). -/
theorem voltage_drop_chain_invalid (currentA resistivity : α)
    (lengths sections : Option (List α)) (count : Int)
    (h : count ≤ 0 ∨ lengths = none ∨ sections = none) :
    voltage_drop_chain_run currentA resistivity lengths sections count = some ⟨-1, []⟩ ∧
      voltage_drop_chain currentA resistivity lengths sections count = some (-1) := by
  have hrun :
      voltage_drop_chain_run currentA resistivity lengths sections count = some ⟨-1, []⟩ := by
    rcases h with h | h | h
    · cases lengths <;> cases sections <;> simp [voltage_drop_chain_run, h]
    · subst h
      simp [voltage_drop_chain_run]
    · subst h
      cases lengths <;> simp [voltage_drop_chain_run]
  exact ⟨hrun, by simp [voltage_drop_chain, hrun]⟩

theorem voltage_drop_chain_invalid_witness :
    ((0 : Int) ≤ 0 ∨ (some [1, 2] : Option (List ℚ)) = none ∨
        (some [] : Option (List ℚ)) = none) ∧
      (voltage_drop_chain_run (10 : ℚ) 2 (some [1, 2]) (some []) 0 = some ⟨-1, []⟩ ∧
        voltage_drop_chain (10 : ℚ) 2 (some [1, 2]) (some []) 0 = some (-1)) :=
  ⟨Or.inl (le_refl 0),
    voltage_drop_chain_invalid (10 : ℚ) 2 (some [1, 2]) (some []) 0 (Or.inl (le_refl 0))⟩

/-! ## Derating and resistivity -/

/-- C11: for every `baseCurrent`, `kTemp` and `kGroup`, `apply_derating` is
`baseCurrent * t * g` with `t = kTemp` if `kTemp > 0` and `t = 1` otherwise, and
`g = kGroup` if `kGroup > 0` and `g = 1` otherwise; for `kTemp ≤ 0` the result is that of
the call with `kTemp = 1`, so a non-positive factor is replaced by `1` and the product is
returned, not an error value. -/
theorem apply_derating_spec (baseCurrent kTemp kGroup : α) :
    apply_derating baseCurrent kTemp kGroup =
        baseCurrent * (if 0 < kTemp then kTemp else 1) * (if 0 < kGroup then kGroup else 1) ∧
      (kTemp ≤ 0 →
        apply_derating baseCurrent kTemp kGroup = apply_derating baseCurrent 1 kGroup) := by
  have hone : ¬ (1 : α) ≤ 0 := not_le.mpr one_pos
  have hclamp : ∀ k : α, (if k ≤ 0 then (1 : α) else k) = if 0 < k then k else 1 := by
    intro k
    by_cases hk : k ≤ 0
    · rw [if_pos hk, if_neg (not_lt.mpr hk)]
    · rw [if_neg hk, if_pos (not_le.mp hk)]
  constructor
  · simp only [apply_derating, hclamp]
  · intro hT
    simp only [apply_derating, if_pos hT, if_neg hone]

theorem apply_derating_spec_witness :
    (0 : ℚ) ≤ 0 ∧ apply_derating (100 : ℚ) 0 0.8 = apply_derating (100 : ℚ) 1 0.8 :=
  ⟨le_refl 0, (apply_derating_spec (100 : ℚ) 0 0.8).2 (le_refl 0)⟩

/-- Example of C11: `apply_derating(100, 0, 0.8)` and `apply_derating(100, 1, 0.8)` are
both `80`, and `apply_derating(-1, 0, 0)` is the product `-1 * 1 * 1`. -/
theorem apply_derating_examples :
    apply_derating (100 : ℚ) 0 0.8 = 80 ∧ apply_derating (100 : ℚ) 1 0.8 = 80 ∧
      apply_derating (-1 : ℚ) 0 0 = -1 := by
  norm_num [apply_derating]

/-- C12: for every temperature `T`, `get_resistivity isCopper T` is
`rho20 * (1 + alpha * (T - 20))` with `(rho20, alpha) = (0.017241, 0.00393)` when
`isCopper` is true (non-zero) and `(0.028265, 0.00403)` when it is false (zero); at
`T = 20` it is exactly `0.017241` for copper and exactly `0.028265` for aluminum. -/
theorem get_resistivity_spec (isCopper : Int) (T : α) :
    (isCopper ≠ 0 →
        get_resistivity isCopper T = 0.017241 * (1 + 0.00393 * (T - 20)) ∧
          get_resistivity isCopper (20 : α) = 0.017241) ∧
      (isCopper = 0 →
        get_resistivity isCopper T = 0.028265 * (1 + 0.00403 * (T - 20)) ∧
          get_resistivity isCopper (20 : α) = 0.028265) := by
  constructor
  · intro h
    simp [get_resistivity, h, RHO_CU_20C, TEMP_COEFF_CU]
  · intro h
    simp [get_resistivity, h, RHO_AL_20C, TEMP_COEFF_AL]

theorem get_resistivity_spec_witness :
    ((1 : Int) ≠ 0 ∧
        (get_resistivity 1 (75 : ℚ) = 0.017241 * (1 + 0.00393 * (75 - 20)) ∧
          get_resistivity 1 (20 : ℚ) = 0.017241)) ∧
      ((0 : Int) = 0 ∧
        (get_resistivity 0 (75 : ℚ) = 0.028265 * (1 + 0.00403 * (75 - 20)) ∧
          get_resistivity 0 (20 : ℚ) = 0.028265)) :=
  ⟨⟨by decide, (get_resistivity_spec 1 (75 : ℚ)).1 (by decide)⟩,
    ⟨rfl, (get_resistivity_spec 0 (75 : ℚ)).2 rfl⟩⟩

/-! ## The sentinel and the power loss -/

/-- C16: the sentinel is ambiguous: with `currentA = -1`, `lengthM = 1`,
`resistivity = 0.5` and `crossSection = 1 > 0` the formula of `voltage_drop_single` gives
exactly `-1`, so a return value of `-1` does not imply `crossSection ≤ 0`. -/
theorem voltage_drop_single_sentinel_ambiguous :
    (0 : α) < 1 ∧ voltage_drop_single (-1 : α) 1 0.5 1 = -1 ∧
      ¬ (∀ I L rho S : α, voltage_drop_single I L rho S = -1 → S ≤ 0) := by
  have hval : voltage_drop_single (-1 : α) 1 0.5 1 = -1 := by
    simp only [voltage_drop_single, if_neg (not_le.mpr (one_pos : (0 : α) < 1))]
    norm_num
  refine ⟨one_pos, hval, ?_⟩
  intro h
  exact absurd (h (-1) 1 0.5 1 hval) (not_le.mpr one_pos)

theorem round_to_standard_of_gt_max (x : α) (hx : 240 < x) : round_to_standard x = x :=
  round_to_standard_loop_of_all_lt x STANDARD_SIZES
    (fun s hs => lt_of_le_of_lt (STANDARD_SIZES_le_max s hs) hx)

/-- C20: `round_to_standard` is monotone over its whole domain, also across the boundary
at 240 where it switches from table lookup to pass-through: for every `x ≤ y`,
`round_to_standard x ≤ round_to_standard y`. -/
theorem round_to_standard_monotone (x y : α) (hxy : x ≤ y) :
    round_to_standard x ≤ round_to_standard y := by
  by_cases hy : y ≤ 240
  · have hx : x ≤ 240 := le_trans hxy hy
    have hleast := round_to_standard_loop_least x STANDARD_SIZES STANDARD_SIZES_sorted
      ⟨240, STANDARD_SIZES_max_mem, hx⟩
    have hmem := round_to_standard_loop_least y STANDARD_SIZES STANDARD_SIZES_sorted
      ⟨240, STANDARD_SIZES_max_mem, hy⟩
    exact hleast.2.2 (round_to_standard y) hmem.1 (le_trans hxy hmem.2.1)
  · have hy240 : 240 < y := not_le.mp hy
    rw [round_to_standard_of_gt_max y hy240]
    by_cases hx : x ≤ 240
    · have hmem := round_to_standard_loop_least x STANDARD_SIZES STANDARD_SIZES_sorted
        ⟨240, STANDARD_SIZES_max_mem, hx⟩
      exact le_of_lt (lt_of_le_of_lt (STANDARD_SIZES_le_max _ hmem.1) hy240)
    · rw [round_to_standard_of_gt_max x (not_le.mp hx)]
      exact hxy

theorem round_to_standard_monotone_witness :
    (240 : ℚ) ≤ 241 ∧ round_to_standard (240 : ℚ) ≤ round_to_standard (241 : ℚ) :=
  ⟨by norm_num, round_to_standard_monotone (240 : ℚ) 241 (by norm_num)⟩

/-- Example of C17: a current of 16 A over 30 m of copper (`rho = 1/56`) with an allowed
drop of 6 V needs 20/7 mm², which is rounded to 4 mm² and then drops 30/7 V. -/
theorem sizing_example :
    cross_section_single (16 : ℚ) 30 (1 / 56) 6 = 20 / 7 ∧
      round_to_standard (20 / 7 : ℚ) = 4 ∧
      voltage_drop_single (16 : ℚ) 30 (1 / 56) 4 = 30 / 7 := by
  refine ⟨?_, ?_, ?_⟩
  · norm_num [cross_section_single]
  · norm_num [round_to_standard, round_to_standard_loop, STANDARD_SIZES]
  · norm_num [voltage_drop_single]

/-! ## The sizing on doubles -/

/-- The same input in exact arithmetic: the required cross-section is slightly above 35,
so the entry 50 is chosen and the drop is below 5; the entry 35 that the doubles lead to
gives a drop above 5 also when the drop is evaluated exactly. -/
theorem sizing_exact_example :
    35 < cross_section_single (10 : ℚ) 500 (1261007895663739 / 2 ^ 56) 5 ∧
      round_to_standard (cross_section_single (10 : ℚ) 500 (1261007895663739 / 2 ^ 56) 5)
        = 50 ∧
      voltage_drop_single (10 : ℚ) 500 (1261007895663739 / 2 ^ 56) 50 < 5 ∧
      5 < voltage_drop_single (10 : ℚ) 500 (1261007895663739 / 2 ^ 56) 35 := by
  refine ⟨?_, ?_, ?_, ?_⟩
  · norm_num [cross_section_single]
  · norm_num [cross_section_single, round_to_standard, round_to_standard_loop,
      STANDARD_SIZES]
  · norm_num [voltage_drop_single]
  · norm_num [voltage_drop_single]

/-! ## The chain of segments: short sequences and invalid segments -/

/-- Example of C15: with sections 4, 0, 6 the middle segment is invalid and the result
is 10 - 1 + 20 = 29, which differs from the sentinel `-1`. -/
theorem voltage_drop_chain_invalid_segment_example :
    voltage_drop_chain (10 : ℚ) 2 (some [1, 2, 3]) (some [4, 0, 6]) 3 = some 29 ∧
      voltage_drop_chain (10 : ℚ) 2 (some [1, 2, 3]) (some [4, 0, 6]) 3 ≠ some (-1) := by
  have h : voltage_drop_chain (10 : ℚ) 2 (some [1, 2, 3]) (some [4, 0, 6]) 3 = some 29 := by
    simp [voltage_drop_chain, voltage_drop_chain_run, voltage_drop_chain_loop,
      voltage_drop_single]
    norm_num
  refine ⟨h, ?_⟩
  rw [h]
  norm_num

end CableDimensioning
